import Mathlib

/-!
Verification of the `gasp` Python package (Deserializable protocol, template
helpers, parser factory) and of the spec-level streaming parser contracts.

Python values are embedded as the inductive `Value`; Python type annotations
as `PyType`; instance attribute dictionaries as ordered association lists
(`List (String × Value)`), matching Python dict insertion-order semantics.
-/

set_option maxHeartbeats 1000000

namespace Gasp

/-- Embedding of the Python runtime values the `gasp` code manipulates:
`None`, scalars, lists, dicts, tuples, sets, and class instances
(`obj className __dict__`). -/
inductive Value where
  | none
  | str (s : String)
  | int (n : Int)
  | bool (b : Bool)
  | list (xs : List Value)
  | dict (kvs : List (String × Value))
  | tuple (xs : List Value)
  | set (xs : List Value)
  | obj (clsName : String) (attrs : List (String × Value))
deriving Repr

/-- Association-list lookup: `alookup l k` is the value stored under the first
occurrence of key `k`, embedding Python `dict[k]` / `getattr`. -/
def alookup {α : Type} : List (String × α) → String → Option α
  | [], _ => Option.none
  | (k2, v) :: rest, k => if k2 = k then some v else alookup rest k

/-- Embedding of `setattr` on an instance `__dict__`: replace the value under
an existing key in place, otherwise append the pair (insertion order). -/
def setAttr (attrs : List (String × Value)) (k : String) (v : Value) :
    List (String × Value) :=
  match attrs with
  | [] => [(k, v)]
  | (k2, v2) :: rest =>
    if k2 = k then (k2, v) :: rest else (k2, v2) :: setAttr rest k v

/-- The sentinel test at `deserializable.py:49`:
`current_val not in (None, [], {}, (), set())`, phrased positively.
Python `in` compares with `==`, so exactly `None` and the four empty
containers are sentinels. -/
def isSentinel : Value → Bool
  | .none => true
  | .list [] => true
  | .dict [] => true
  | .tuple [] => true
  | .set [] => true
  | _ => false

/-- `getattr(instance, k, None)` where the instance's class has class-level
attributes `defs`: instance `__dict__` first, then the class attribute,
then the supplied default `None`. -/
def getAttrOr (defs attrs : List (String × Value)) (k : String) : Value :=
  match alookup attrs k with
  | some v => v
  | Option.none =>
    match alookup defs k with
    | some v => v
    | Option.none => Value.none

/-- Embedding of the Python type annotations `deserializable.py` and
`template_helpers.py` inspect.  `punion` is `typing.Union[...]` (has
`__origin__`); `punionNew` is the Python 3.10 `X | Y` form
(`types.UnionType`, which has `__args__` but no `__origin__`);
`pclass name anns defs deser` is a class object with `__name__`,
`__annotations__`, class-level attribute defaults, and a flag telling
whether it subclasses `Deserializable`.  `pellipsis` stands for the
literal `...` appearing inside `tuple[T, ...]` argument lists. -/
inductive PyType where
  | pstr
  | pint
  | pfloat
  | pbool
  | pnone
  | pellipsis
  | plist (t : PyType)
  | pdict (k v : PyType)
  | pset (t : PyType)
  | ptuple (args : List PyType)
  | punion (args : List PyType)
  | punionNew (args : List PyType)
  | palias (t : PyType)
  | pclass (name : String) (anns : List (String × PyType))
      (defs : List (String × Value)) (deser : Bool)
deriving Repr

/-- `type(None) in field_type.__args__`. -/
def containsNoneType : List PyType → Bool
  | [] => false
  | .pnone :: _ => true
  | _ :: rest => containsNoneType rest

/-- The default-value computation of `deserializable.py:24-44` for one
annotated field absent from `partial_data`: the class-level default when
`hasattr(cls, field_name)`; else `[]`/`{}`/`set()`/`()` by `__origin__`;
else `None` for a `typing.Union` containing `NoneType`; for a
`typing.Union` without `NoneType` nothing is assigned (`Option.none`);
types without `__origin__` (primitives, classes, `X | Y` unions) fall to
the final `else` and get `None`. -/
def defaultValueFor (defs : List (String × Value)) (fname : String)
    (ftype : PyType) : Option Value :=
  match alookup defs fname with
    | some d => some d
    | Option.none =>
      match ftype with
      | .plist _ => some (.list [])
      | .pdict _ _ => some (.dict [])
      | .pset _ => some (.set [])
      | .ptuple _ => some (.tuple [])
      | .punion args =>
        if containsNoneType args then some .none else Option.none
      | _ => some .none

/-- The first loop of `__gasp_from_partial__` (`deserializable.py:22-44`):
walk the annotations in order and `setattr` a default for every field
not present in `partial_data`'s key set. -/
def initDefaults (defs : List (String × Value)) (dataKeys : List String) :
    List (String × PyType) → List (String × Value) → List (String × Value)
  | [], attrs => attrs
  | (fname, ftype) :: rest, attrs =>
    initDefaults defs dataKeys rest
      (if dataKeys.contains fname then attrs
       else
         match defaultValueFor defs fname ftype with
         | some v => setAttr attrs fname v
         | Option.none => attrs)

/-- `isinstance(item, elem_type)` for a class `elem_type`: the model
identifies a class by its name (class hierarchies are not modelled; the
code under test only ever passes concrete record classes here). -/
def isInstanceOf (clsName : String) : Value → Bool
  | .obj n _ => n == clsName
  | _ => false

mutual

/-- The list comprehension at `deserializable.py:60-65`: an element that is
already an instance of the element class is placed unchanged; a dict is
converted through the element class's `__gasp_from_partial__`; anything
else passes through. -/
def convertItems (en : String) (ea : List (String × PyType))
    (ed : List (String × Value)) : List Value → List Value
  | [] => []
  | item :: rest =>
    (if isInstanceOf en item then item
     else
       match item with
       | .dict kvs => gaspFromPartial en ea ed kvs
       | _ => item) :: convertItems en ea ed rest
termination_by items => (sizeOf items, 0)

/-- The dict comprehension at `deserializable.py:74-79`: same rule as
`convertItems`, applied to the values of a dict-typed field. -/
def convertVals (vn : String) (va : List (String × PyType))
    (vd : List (String × Value)) :
    List (String × Value) → List (String × Value)
  | [] => []
  | (k, v) :: rest =>
    (k,
      if isInstanceOf vn v then v
      else
        match v with
        | .dict kvs => gaspFromPartial vn va vd kvs
        | _ => v) :: convertVals vn va vd rest
termination_by kvs => (sizeOf kvs, 0)

/-- The body of the second loop of `__gasp_from_partial__`
(`deserializable.py:46-92`) for a single `(key, value)` pair: skip when the
current value is not a sentinel (sticky rule, lines 47-50); otherwise
convert list-of-record, dict-of-record and single-record fields, and fall
back to a plain `setattr`. -/
def processOne (anns : List (String × PyType))
    (defs attrs : List (String × Value)) (key : String) (value : Value) :
    List (String × Value) :=
  if isSentinel (getAttrOr defs attrs key) = false then attrs
  else
    match alookup anns key with
    | Option.none => setAttr attrs key value
    | some ftype =>
      match ftype, value with
      | .plist (.pclass en ea ed true), .list items =>
        setAttr attrs key (.list (convertItems en ea ed items))
      | .pdict _ (.pclass vn va vd true), .dict kvs =>
        setAttr attrs key (.dict (convertVals vn va vd kvs))
      | .pclass cn ca cd true, .dict kvs =>
        setAttr attrs key (gaspFromPartial cn ca cd kvs)
      | _, _ => setAttr attrs key value
termination_by (sizeOf value, 1)

/-- `for key, value in partial_data.items(): ...` — fold `processOne` over
the entries in order. -/
def processEntries (anns : List (String × PyType))
    (defs attrs : List (String × Value)) :
    List (String × Value) → List (String × Value)
  | [] => attrs
  | (k, v) :: rest =>
    processEntries anns defs (processOne anns defs attrs k v) rest
termination_by entries => (sizeOf entries, 0)

/-- `Deserializable.__gasp_from_partial__` (`deserializable.py:14-94`) for a
class with `__name__ = name`, `__annotations__ = anns` and class-level
defaults `defs`, applied to `partial_data = data`: initialize defaults for
absent fields, then process the supplied entries. -/
def gaspFromPartial (name : String) (anns : List (String × PyType))
    (defs : List (String × Value)) (data : List (String × Value)) : Value :=
  .obj name
    (processEntries anns defs (initDefaults defs (data.map Prod.fst) anns [])
      data)
termination_by (sizeOf data, 2)

end

/-- `Deserializable.__gasp_update__` (`deserializable.py:96-99`): a plain
`setattr` for every entry of `new_data`, in order, no sentinel check. -/
def gaspUpdate (attrs : List (String × Value))
    (newData : List (String × Value)) : List (String × Value) :=
  newData.foldl (fun a kv => setAttr a kv.1 kv.2) attrs

/-- `v is None`. -/
def isNone : Value → Bool
  | .none => true
  | _ => false

/-- `k.startswith('_')` — for the one-character prefix `'_'` this is
exactly "the first character is an underscore". -/
def pyStartsWithUnderscore (k : String) : Bool :=
  match k.data with
  | [] => false
  | c :: _ => c = '_'

mutual

/-- The attribute loop of `Deserializable.model_dump`
(`deserializable.py:117-158`): drop keys starting with an underscore, drop
`None` values when `exclude_none`, recursively dump nested instances, map
one level into list- and dict-valued attributes, pass everything else
through.  The source's `if not (exclude_none and dumped is None)` guards
are kept even though a recursive dump always yields a dict. -/
def dumpAttrs (ex : Bool) : List (String × Value) → List (String × Value)
  | [] => []
  | (k, v) :: rest =>
    if pyStartsWithUnderscore k then dumpAttrs ex rest
    else if ex && isNone v then dumpAttrs ex rest
    else
      match v with
      | .obj _ a2 =>
        if ex && isNone (Value.dict (dumpAttrs ex a2)) then dumpAttrs ex rest
        else (k, Value.dict (dumpAttrs ex a2)) :: dumpAttrs ex rest
      | .list xs => (k, Value.list (dumpList ex xs)) :: dumpAttrs ex rest
      | .dict kvs => (k, Value.dict (dumpDict ex kvs)) :: dumpAttrs ex rest
      | _ => (k, v) :: dumpAttrs ex rest
termination_by l => sizeOf l

/-- `deserializable.py:132-142`: elements of a list-valued attribute;
instances are dumped, other elements are kept unless they are `None` and
`exclude_none` is set. -/
def dumpList (ex : Bool) : List Value → List Value
  | [] => []
  | item :: rest =>
    match item with
    | .obj _ a2 =>
      if ex && isNone (Value.dict (dumpAttrs ex a2)) then dumpList ex rest
      else Value.dict (dumpAttrs ex a2) :: dumpList ex rest
    | _ =>
      if ex && isNone item then dumpList ex rest
      else item :: dumpList ex rest
termination_by l => sizeOf l

/-- `deserializable.py:144-154`: entries of a dict-valued attribute; note
the keys are NOT filtered, only the values are. -/
def dumpDict (ex : Bool) : List (String × Value) → List (String × Value)
  | [] => []
  | (k, v) :: rest =>
    match v with
    | .obj _ a2 =>
      if ex && isNone (Value.dict (dumpAttrs ex a2)) then dumpDict ex rest
      else (k, Value.dict (dumpAttrs ex a2)) :: dumpDict ex rest
    | _ =>
      if ex && isNone v then dumpDict ex rest
      else (k, v) :: dumpDict ex rest
termination_by l => sizeOf l

end

/-- `Deserializable.model_dump(self, exclude_none)` applied to an instance
whose `__dict__` is `attrs`. -/
def modelDump (ex : Bool) (attrs : List (String × Value)) : Value :=
  Value.dict (dumpAttrs ex attrs)

mutual

/-- `_get_type_name` (`template_helpers.py:543-606`), by the source's branch
order: unwrap type aliases; `types.UnionType` (the `X | Y` form) joins the
member names with " | " excluding `NoneType` — note this happens BEFORE
the `Optional` special case, which only applies to `typing.Union`; then
the `__origin__` branches for list/dict/tuple/set/Union; then the
primitives and `NoneType`; finally the class `__name__`.
(`Union[None, None]` cannot be constructed in Python — `typing` collapses
it — so the first `punion` pattern is never exercised by real inputs.) -/
def getTypeName : PyType → String
  | .palias t => getTypeName t
  | .punionNew args => " | ".intercalate (getTypeNamesSkipNone args)
  | .plist t => "list[" ++ getTypeName t ++ "]"
  | .pdict k v => "dict[" ++ getTypeName k ++ ", " ++ getTypeName v ++ "]"
  | .ptuple [t, .pellipsis] => "tuple[" ++ getTypeName t ++ ", ...]"
  | .ptuple [] => "tuple"
  | .ptuple args => "tuple[" ++ ", ".intercalate (getTypeNames args) ++ "]"
  | .pset t => "set[" ++ getTypeName t ++ "]"
  | .punion [.pnone, .pnone] => "Optional[None]"
  | .punion [.pnone, t] => "Optional[" ++ getTypeName t ++ "]"
  | .punion [t, .pnone] => "Optional[" ++ getTypeName t ++ "]"
  | .punion args => " | ".intercalate (getTypeNamesSkipNone args)
  | .pstr => "str"
  | .pint => "int"
  | .pfloat => "float"
  | .pbool => "bool"
  | .pnone => "None"
  | .pellipsis => "object"
  | .pclass n _ _ _ => n

/-- `[_get_type_name(arg) for arg in args]`. -/
def getTypeNames : List PyType → List String
  | [] => []
  | t :: rest => getTypeName t :: getTypeNames rest

/-- `[_get_type_name(arg) for arg in args if arg is not type(None)]`. -/
def getTypeNamesSkipNone : List PyType → List String
  | [] => []
  | .pnone :: rest => getTypeNamesSkipNone rest
  | t :: rest => getTypeName t :: getTypeNamesSkipNone rest

end

/-- Python substring test `p in s`. -/
def isSubstring (p : List Char) : List Char → Bool
  | [] => p.isEmpty
  | c :: rest => p.isPrefixOf (c :: rest) || isSubstring p rest

/-- Python `str.replace(old, new)`: scan left to right; replace each
non-overlapping occurrence of `p` by `r`.  (Only called with non-empty
`p`; the guard keeps the recursion total.) -/
def replaceAll (p r : List Char) : List Char → List Char
  | [] => []
  | c :: s =>
    if h : p.isPrefixOf (c :: s) ∧ p ≠ [] then
      r ++ replaceAll p r ((c :: s).drop p.length)
    else
      c :: replaceAll p r s
termination_by s => s.length
decreasing_by
  · simp only [List.length_drop, List.length_cons]
    have hp : 0 < p.length := List.length_pos.mpr h.2
    omega
  · simp

/-- The placeholder string `"\x7b\x7b" + format_tag + "\x7d\x7d"` built at
`template_helpers.py:695`. -/
def mkPlaceholder (formatTag : List Char) : List Char :=
  Char.ofNat 123 :: Char.ofNat 123 ::
    (formatTag ++ [Char.ofNat 125, Char.ofNat 125])

/-- `interpolate_prompt` (`template_helpers.py:682-702`).  The string
produced by `type_to_format_instructions(type_obj, name=name)` is passed
in as `instructions`: the format-instructions generator is one of the
external collaborators of the parser core (spec section 1), and the
claims about `interpolate_prompt` are parametric in its output. -/
def interpolatePrompt (template instructions formatTag : List Char) :
    List Char :=
  if isSubstring (mkPlaceholder formatTag) template then
    replaceAll (mkPlaceholder formatTag) instructions template
  else template

/-- The native parser object constructed by `_RustParser(type_obj,
ignored_tags)` — only the construction arguments are relevant to the
factory claim. -/
structure RustParser where
  typeObj : Option PyType
  ignoredTags : List String
deriving Repr

/-- `DEFAULT_IGNORED_TAGS` (`gasp/__init__.py:17`). -/
def DEFAULT_IGNORED_TAGS : List String := ["think", "thinking", "system"]

/-- The `gasp.Parser` factory function (`gasp/__init__.py:19-32`):
substitute the default ignored-tag list only when `ignored_tags is None`,
then construct the native parser. -/
def Parser (typeObj : Option PyType) (ignoredTags : Option (List String)) :
    RustParser :=
  { typeObj := typeObj
    ignoredTags :=
      match ignoredTags with
      | Option.none => DEFAULT_IGNORED_TAGS
      | some tags => tags }

/-- Modelled from the spec: the tag-event alphabet of section 4.2
(`StartTag(name, attrs)`, `EndTag(name)`, `Text(slice)`, `CData(slice)`)
produced by the character scanner of the Rust engine, whose source is not
part of this repository checkout. -/
inductive Event where
  | startTag (name : String) (attrs : List (String × String))
  | endTag (name : String)
  | text (s : String)
  | cdata (s : String)
deriving Repr

/-- Modelled from the spec: the scanner states of section 4.1 (`Text`,
`TagOpen`, `TagName`, `AttrName`, `AttrEq`, `AttrValue(quote)`,
`EmptyClose`, `EndTagName`, `Comment`, `CDataMarker`, `CData`,
`SkipIgnored(name, depth)`), with the carry buffers folded into the
constructors so that the machine consumes exactly one character per step
and never looks ahead across chunk boundaries.  `entity` carries the text
buffer and the partially read entity name; `skipIgnored` carries an
optional partial tag read inside the skipped subtree. -/
inductive ScanMode where
  | text (buf : List Char)
  | entity (buf ebuf : List Char)
  | tagOpen
  | bang (seen : List Char)
  | comment (dashes : Nat)
  | cdataMode (buf : List Char) (closes : Nat)
  | tagName (name : List Char)
  | attrSpace (name : List Char) (attrs : List (String × String))
  | attrName (name : List Char) (attrs : List (String × String))
      (aname : List Char)
  | attrEq (name : List Char) (attrs : List (String × String))
      (aname : List Char)
  | attrValue (name : List Char) (attrs : List (String × String))
      (aname : List Char) (quote : Char) (aval : List Char)
  | emptyClose (name : List Char) (attrs : List (String × String))
  | endTagName (buf : List Char)
  | piMode
  | skipIgnored (iname : String) (depth : Nat) (sub : Option (List Char))
deriving Repr

/-- Modelled from the spec: scanner state — current mode (with carry
buffers), the construction-time ignored-tag set, and the events emitted
so far, in order. -/
structure ScannerState where
  mode : ScanMode
  ignoredTags : List String
  events : List Event
deriving Repr

/-- Entity decoding table of spec section 4.1 (`&lt; &gt; &amp; &quot;
&apos;` and numeric `&#...;`); an unknown entity is passed through
verbatim. -/
def decodeEntity (ebuf : List Char) : List Char :=
  if ebuf = "lt".data then ['<']
  else if ebuf = "gt".data then ['>']
  else if ebuf = "amp".data then ['&']
  else if ebuf = "quot".data then ['"']
  else if ebuf = "apos".data then ['\'']
  else
    match ebuf with
    | '#' :: digits =>
      [Char.ofNat (digits.foldl (fun n c => n * 10 + (c.toNat - 48)) 0)]
    | _ => '&' :: ebuf ++ [';']

/-- Whitespace test used by the scanner model. -/
def isWS (c : Char) : Bool :=
  c = ' ' || c = '\n' || c = '\t' || c = '\r'

/-- Modelled from the spec: section 4.1 tie-break — a StartTag whose name is
in the ignored set transitions to `SkipIgnored(name, 1)` and emits
nothing; otherwise the tag events are emitted (an immediate EndTag as
well when self-closing). -/
def finishStartTag (st : ScannerState) (name : List Char)
    (attrs : List (String × String)) (selfClosing : Bool) : ScannerState :=
  let nm := String.mk name
  if st.ignoredTags.contains nm then
    if selfClosing then { st with mode := .text [] }
    else { st with mode := .skipIgnored nm 1 Option.none }
  else
    { st with
      mode := .text []
      events :=
        st.events ++
          if selfClosing then [.startTag nm attrs, .endTag nm]
          else [.startTag nm attrs] }

/-- Modelled from the spec: one step of the `SkipIgnored` mode — a complete
tag `sub` has been read inside the skipped subtree; same-name start tags
increment the depth, matching end tags decrement it, depth zero returns
to `Text`; everything else (including self-closing tags) is absorbed. -/
def skipStep (st : ScannerState) (iname : String) (depth : Nat)
    (sub : List Char) : ScannerState :=
  let isEnd := sub.head? = some '/'
  let body := if isEnd then sub.drop 1 else sub
  let word := body.takeWhile (fun c => !isWS c && c != '/' && c != '>')
  let selfC := sub.getLast? = some '/'
  if isEnd && (String.mk word == iname) then
    if depth ≤ 1 then { st with mode := .text [] }
    else { st with mode := .skipIgnored iname (depth - 1) Option.none }
  else if !isEnd && (String.mk word == iname) && !selfC then
    { st with mode := .skipIgnored iname (depth + 1) Option.none }
  else { st with mode := .skipIgnored iname depth Option.none }

/-- Modelled from the spec: the character scanner of section 4.1 as a
one-character step function.  Malformed-markup recovery is simplified to
"stay in a permissive state"; entity decoding in attribute values and
`ScannerError` diagnostics are not modelled — the chunk-independence
claim quantifies only over the emitted event stream, which is a fold of
this step over the input characters. -/
def scanChar (st : ScannerState) (c : Char) : ScannerState :=
  match st.mode with
  | .text buf =>
    if c = '<' then
      if buf.isEmpty then { st with mode := .tagOpen }
      else
        { st with mode := .tagOpen
                  events := st.events ++ [.text (String.mk buf)] }
    else if c = '&' then { st with mode := .entity buf [] }
    else { st with mode := .text (buf ++ [c]) }
  | .entity buf ebuf =>
    if c = ';' then { st with mode := .text (buf ++ decodeEntity ebuf) }
    else { st with mode := .entity buf (ebuf ++ [c]) }
  | .tagOpen =>
    if c = '/' then { st with mode := .endTagName [] }
    else if c = '!' then { st with mode := .bang [] }
    else if c = '?' then { st with mode := .piMode }
    else { st with mode := .tagName [c] }
  | .bang seen =>
    if seen ++ [c] = "--".data then { st with mode := .comment 0 }
    else if seen ++ [c] = "[CDATA[".data then { st with mode := .cdataMode [] 0 }
    else if (seen ++ [c]).isPrefixOf "--".data
        || (seen ++ [c]).isPrefixOf "[CDATA[".data then
      { st with mode := .bang (seen ++ [c]) }
    else { st with mode := .text [] }
  | .comment dashes =>
    if c = '-' then { st with mode := .comment (dashes + 1) }
    else if c = '>' && dashes ≥ 2 then { st with mode := .text [] }
    else { st with mode := .comment 0 }
  | .cdataMode buf closes =>
    if c = ']' then { st with mode := .cdataMode buf (closes + 1) }
    else if c = '>' && closes ≥ 2 then
      { st with mode := .text []
                events :=
                  st.events ++
                    [.cdata (String.mk (buf ++ List.replicate (closes - 2) ']'))] }
    else
      { st with mode := .cdataMode (buf ++ List.replicate closes ']' ++ [c]) 0 }
  | .tagName name =>
    if c = '>' then finishStartTag st name [] false
    else if c = '/' then { st with mode := .emptyClose name [] }
    else if isWS c then { st with mode := .attrSpace name [] }
    else { st with mode := .tagName (name ++ [c]) }
  | .attrSpace name attrs =>
    if c = '>' then finishStartTag st name attrs false
    else if c = '/' then { st with mode := .emptyClose name attrs }
    else if isWS c then { st with mode := .attrSpace name attrs }
    else { st with mode := .attrName name attrs [c] }
  | .attrName name attrs aname =>
    if c = '=' then { st with mode := .attrEq name attrs aname }
    else if c = '>' then
      finishStartTag st name (attrs ++ [(String.mk aname, "")]) false
    else if c = '/' then
      { st with mode := .emptyClose name (attrs ++ [(String.mk aname, "")]) }
    else if isWS c then
      { st with mode := .attrSpace name (attrs ++ [(String.mk aname, "")]) }
    else { st with mode := .attrName name attrs (aname ++ [c]) }
  | .attrEq name attrs aname =>
    if c = '"' || c = '\'' then
      { st with mode := .attrValue name attrs aname c [] }
    else if isWS c then { st with mode := .attrEq name attrs aname }
    else { st with mode := .attrSpace name (attrs ++ [(String.mk aname, "")]) }
  | .attrValue name attrs aname quote aval =>
    if c = quote then
      { st with
        mode := .attrSpace name (attrs ++ [(String.mk aname, String.mk aval)]) }
    else { st with mode := .attrValue name attrs aname quote (aval ++ [c]) }
  | .emptyClose name attrs =>
    if c = '>' then finishStartTag st name attrs true
    else { st with mode := .emptyClose name attrs }
  | .endTagName buf =>
    if c = '>' then
      { st with mode := .text []
                events := st.events ++ [.endTag (String.mk buf)] }
    else if isWS c then { st with mode := .endTagName buf }
    else { st with mode := .endTagName (buf ++ [c]) }
  | .piMode =>
    if c = '>' then { st with mode := .text [] } else { st with mode := .piMode }
  | .skipIgnored iname depth sub =>
    match sub with
    | Option.none =>
      if c = '<' then { st with mode := .skipIgnored iname depth (some []) }
      else { st with mode := .skipIgnored iname depth Option.none }
    | some tbuf =>
      if c = '>' then skipStep st iname depth tbuf
      else { st with mode := .skipIgnored iname depth (some (tbuf ++ [c])) }

/-- Modelled from the spec: `feed(chunk)` runs the scanner step to
completion on its input and returns (section 5: the only
suspension-relevant operation; no internal yield points, no lookahead
across chunks — section 4.4 ordering guarantees). -/
def feed (st : ScannerState) (chunk : List Char) : ScannerState :=
  chunk.foldl scanChar st

/-- Feeding a sequence of chunks in order. -/
def feedAll (st : ScannerState) (chunks : List (List Char)) : ScannerState :=
  chunks.foldl feed st

/-- The scanner state at parser construction time. -/
def initScanner (tags : List String) : ScannerState :=
  { mode := .text [], ignoredTags := tags, events := [] }

/-- Modelled from the spec: scalar coercion (section 4.7), reduced to the
scalar kinds representable in `Value` (floats are kept as text). -/
def coerceScalar (t : PyType) (buf : String) : Value :=
  match t with
  | .pstr => .str buf.trim
  | .pint =>
    match buf.trim.toInt? with
    | some n => .int n
    | Option.none => .none
  | .pbool =>
    if buf.trim.toLower = "true" || buf.trim = "1" then .bool true
    else if buf.trim.toLower = "false" || buf.trim = "0" then .bool false
    else .none
  | .pnone => .none
  | _ => .str buf.trim

/-- Modelled from the spec: one frame of the parser stack (section 3):
bound schema, the field name / map key under which the sealed value is
handed to the parent, the scalar accumulator, and the container / record
accumulators. -/
structure PFrame where
  schema : PyType
  fieldName : String
  mapKey : Option String
  buf : String
  items : List Value
  attrs : List (String × Value)
deriving Repr

/-- Modelled from the spec: child-schema resolution on `Start` (section
4.4): record frames look the tag up in the field table, container frames
pre-seed the element schema, mapping frames the value schema.  The
`type="..."`-attribute refinement, union discrimination and per-index
tuple typing are not modelled; an unknown tag is parsed as a loose
scalar. -/
def resolveChild (parent : PyType) (name : String) : PyType :=
  match parent with
  | .pclass _ anns _ _ => ((alookup anns name).getD .pstr)
  | .plist t => t
  | .pset t => t
  | .ptuple args => args.headD .pstr
  | .pdict _ v => v
  | .palias t => resolveChild t name
  | _ => .pstr

/-- A freshly pushed frame. -/
def newFrame (schema : PyType) (fieldName : String)
    (mapKey : Option String) : PFrame :=
  { schema := schema, fieldName := fieldName, mapKey := mapKey, buf := ""
    items := [], attrs := [] }

/-- Modelled from the spec: sealing a frame on `End` (section 4.4 step 1):
records and containers are sealed from their accumulators, scalar frames
coerce their text buffer. -/
def sealFrame (f : PFrame) : Value :=
  match f.schema with
  | .pclass n _ _ _ => .obj n f.attrs
  | .plist _ => .list f.items
  | .pset _ => .set f.items
  | .ptuple _ => .tuple f.items
  | .pdict _ _ => .dict f.attrs
  | t => coerceScalar t f.buf

/-- Modelled from the spec: handing a sealed child to its parent (section
4.4 step 2): assign to the record field — sticky, the first assignment
wins —, append to the sequence/set/tuple, or insert at the saved map key
(duplicate keys last-wins, section 9). -/
def handToParent (parent : PFrame) (fieldName : String)
    (mapKey : Option String) (v : Value) : PFrame :=
  match parent.schema with
  | .pclass _ _ _ _ =>
    match alookup parent.attrs fieldName with
    | some _ => parent
    | Option.none => { parent with attrs := parent.attrs ++ [(fieldName, v)] }
  | .plist _ => { parent with items := parent.items ++ [v] }
  | .pset _ => { parent with items := parent.items ++ [v] }
  | .ptuple _ => { parent with items := parent.items ++ [v] }
  | .pdict _ _ =>
    match mapKey with
    | some k => { parent with attrs := setAttr parent.attrs k v }
    | Option.none => parent
  | _ => parent

/-- Modelled from the spec: machine state — the frame stack and the value
of the most recently sealed root (available through the Partial-View API
once the root closes). -/
structure PMachine where
  stack : List PFrame
  completed : Option Value
deriving Repr

/-- Modelled from the spec: the per-event transition of the typed stack
machine (section 4.4). -/
def stepEvent (rootSchema : PyType) (m : PMachine) (e : Event) : PMachine :=
  match e with
  | .startTag name attrs =>
    match m.stack with
    | [] =>
      { m with stack := [newFrame rootSchema name Option.none] }
    | top :: _ =>
      { m with
        stack :=
          newFrame (resolveChild top.schema name) name (alookup attrs "key")
            :: m.stack }
  | .text s =>
    match m.stack with
    | [] => m
    | top :: rest => { m with stack := { top with buf := top.buf ++ s } :: rest }
  | .cdata s =>
    match m.stack with
    | [] => m
    | top :: rest => { m with stack := { top with buf := top.buf ++ s } :: rest }
  | .endTag _ =>
    match m.stack with
    | [] => m
    | top :: rest =>
      match rest with
      | [] => { stack := [], completed := some (sealFrame top) }
      | parent :: rest2 =>
        { m with
          stack :=
            handToParent parent top.fieldName top.mapKey (sealFrame top)
              :: rest2 }

/-- Modelled from the spec: the final parsed value is the interpretation of
the emitted event stream by the typed stack machine, starting from the
empty stack. -/
def buildValue (rootSchema : PyType) (events : List Event) : Option Value :=
  (events.foldl (stepEvent rootSchema)
      { stack := [], completed := Option.none }).completed

/-- The final parsed value after some amount of feeding: a pure function of
the scanner state (`partial()` / `finalize()` of section 6). -/
def finalValue (ty : PyType) (st : ScannerState) : Option Value :=
  buildValue ty st.events

/-- `getattr(obj, k)` on a produced instance, with class-attribute fallback
`defs` (Python attribute lookup: instance `__dict__`, then the class). -/
def gaspGetAttr (defs : List (String × Value)) (v : Value) (k : String) :
    Value :=
  match v with
  | .obj _ attrs => getAttrOr defs attrs k
  | _ => Value.none

/-- The instance `__dict__` of a produced object. -/
def objAttrs : Value → List (String × Value)
  | .obj _ attrs => attrs
  | _ => []

/-- `arg is type(None)` — the member filter used by `_get_type_name` when
joining union member names. -/
def isNoneT : PyType → Bool
  | .pnone => true
  | _ => false

mutual

/-- Formalization of the property claimed for `model_dump(exclude_none=
True)` results: no key starting with an underscore and no `None` entry at
ANY nesting level of the returned dict (descending through nested dicts
and lists). -/
def deepClean : Value → Bool
  | .dict kvs => deepCleanEntries kvs
  | .list xs => deepCleanItems xs
  | _ => true

/-- Entry check for `deepClean` on dicts. -/
def deepCleanEntries : List (String × Value) → Bool
  | [] => true
  | (k, v) :: rest =>
    !pyStartsWithUnderscore k && !isNone v && deepClean v
      && deepCleanEntries rest

/-- Element check for `deepClean` on lists. -/
def deepCleanItems : List Value → Bool
  | [] => true
  | v :: rest => !isNone v && deepClean v && deepCleanItems rest

end

/-- A value that is neither `None` nor an un-dumped instance — what
`model_dump` guarantees for the values it keeps. -/
def noObjNone (v : Value) : Prop :=
  v ≠ Value.none ∧ ∀ m a, v ≠ Value.obj m a

theorem alookup_setAttr_self (attrs : List (String × Value)) (k : String)
    (v : Value) : alookup (setAttr attrs k v) k = some v := by
  induction attrs with
  | nil => simp [setAttr, alookup]
  | cons p rest ih =>
    obtain ⟨k2, v2⟩ := p
    by_cases h : k2 = k <;> simp [setAttr, alookup, h, ih]

theorem alookup_setAttr_ne (attrs : List (String × Value)) (k k2 : String)
    (v : Value) (h : k2 ≠ k) :
    alookup (setAttr attrs k2 v) k = alookup attrs k := by
  induction attrs with
  | nil => simp [setAttr, alookup, h]
  | cons p rest ih =>
    obtain ⟨k3, v3⟩ := p
    by_cases h3 : k3 = k2
    · subst h3
      simp [setAttr, alookup, h]
    · by_cases h4 : k3 = k <;>
        simp [setAttr, alookup, h3, h4, ih, Ne.symm h]

theorem alookup_eq_none_of_not_mem {α : Type} (l : List (String × α))
    (k : String) (h : k ∉ l.map Prod.fst) : alookup l k = Option.none := by
  induction l with
  | nil => simp [alookup]
  | cons p rest ih =>
    simp only [List.map_cons, List.mem_cons] at h
    push_neg at h
    simp [alookup, Ne.symm h.1, ih h.2]

/-- Every branch of the loop body either skips or writes to exactly the
processed key. -/
theorem processOne_eq_self_or_setAttr (anns : List (String × PyType))
    (defs attrs : List (String × Value)) (key : String) (value : Value) :
    processOne anns defs attrs key value = attrs ∨
      ∃ v, processOne anns defs attrs key value = setAttr attrs key v := by
  rw [processOne]
  split
  · exact Or.inl rfl
  · split
    · exact Or.inr ⟨_, rfl⟩
    · split
      · exact Or.inr ⟨_, rfl⟩
      · exact Or.inr ⟨_, rfl⟩
      · exact Or.inr ⟨_, rfl⟩
      · exact Or.inr ⟨_, rfl⟩

theorem alookup_processOne_ne (anns : List (String × PyType))
    (defs attrs : List (String × Value)) (key k : String) (value : Value)
    (h : key ≠ k) :
    alookup (processOne anns defs attrs key value) k = alookup attrs k := by
  rcases processOne_eq_self_or_setAttr anns defs attrs key value with h1 | ⟨v, h1⟩
  · rw [h1]
  · rw [h1, alookup_setAttr_ne _ _ _ _ h]

/-- The sticky skip at `deserializable.py:47-50`: a non-sentinel current
value leaves the instance untouched. -/
theorem processOne_nonsentinel (anns : List (String × PyType))
    (defs attrs : List (String × Value)) (key : String) (value : Value)
    (h : isSentinel (getAttrOr defs attrs key) = false) :
    processOne anns defs attrs key value = attrs := by
  rw [processOne]
  simp [h]

theorem alookup_initDefaults_mem (defs : List (String × Value))
    (dataKeys : List String) (k : String) (hmem : k ∈ dataKeys) :
    ∀ (anns : List (String × PyType)) (attrs : List (String × Value)),
      alookup (initDefaults defs dataKeys anns attrs) k = alookup attrs k := by
  intro anns
  induction anns with
  | nil => intro attrs; simp [initDefaults]
  | cons p rest ih =>
    intro attrs
    obtain ⟨fname, ftype⟩ := p
    rw [initDefaults]
    by_cases hf : fname ∈ dataKeys
    · rw [if_pos (by simpa using hf)]
      exact ih attrs
    · have hne : fname ≠ k := fun he => hf (he ▸ hmem)
      rw [if_neg (by simpa using hf)]
      cases defaultValueFor defs fname ftype with
      | none => exact ih attrs
      | some v => rw [ih, alookup_setAttr_ne _ _ _ _ hne]

theorem alookup_initDefaults_nokey (defs : List (String × Value))
    (dataKeys : List String) (k : String) :
    ∀ (anns : List (String × PyType)), (∀ p ∈ anns, p.1 ≠ k) →
      ∀ attrs, alookup (initDefaults defs dataKeys anns attrs) k
        = alookup attrs k := by
  intro anns
  induction anns with
  | nil => intro _ attrs; simp [initDefaults]
  | cons p rest ih =>
    intro hk attrs
    obtain ⟨fname, ftype⟩ := p
    have hne : fname ≠ k := hk (fname, ftype) (by simp)
    have hrest : ∀ p ∈ rest, p.1 ≠ k := fun q hq => hk q (by simp [hq])
    rw [initDefaults]
    by_cases hf : fname ∈ dataKeys
    · rw [if_pos (by simpa using hf)]
      exact ih hrest attrs
    · rw [if_neg (by simpa using hf)]
      cases defaultValueFor defs fname ftype with
      | none => exact ih hrest attrs
      | some v => rw [ih hrest, alookup_setAttr_ne _ _ _ _ hne]

/-- The default-initialization loop assigns exactly
`defaultValueFor defs k ftype` to a field `k` that is annotated `ftype`
and absent from the data keys. -/
theorem alookup_initDefaults_absent (defs : List (String × Value))
    (dataKeys : List String) (k : String) (ftype : PyType)
    (hk : k ∉ dataKeys) :
    ∀ (anns : List (String × PyType)), (anns.map Prod.fst).Nodup →
      alookup anns k = some ftype →
      ∀ attrs, alookup attrs k = Option.none →
        alookup (initDefaults defs dataKeys anns attrs) k
          = defaultValueFor defs k ftype := by
  intro anns
  induction anns with
  | nil => intro _ hann; simp [alookup] at hann
  | cons p rest ih =>
    intro hnodup hann attrs hattrs
    obtain ⟨fname, ftype2⟩ := p
    simp only [List.map_cons, List.nodup_cons] at hnodup
    by_cases hf : fname = k
    · subst hf
      rw [alookup, if_pos rfl] at hann
      injection hann with hann
      subst hann
      have hrest : ∀ p ∈ rest, p.1 ≠ fname := by
        intro q hq he
        exact hnodup.1 (he ▸ List.mem_map_of_mem Prod.fst hq)
      rw [initDefaults, if_neg (by simpa using hk)]
      cases hd : defaultValueFor defs fname ftype2 with
      | none => rw [alookup_initDefaults_nokey _ _ _ _ hrest _, hattrs]
      | some v =>
        rw [alookup_initDefaults_nokey _ _ _ _ hrest _, alookup_setAttr_self]
    · rw [alookup, if_neg hf] at hann
      rw [initDefaults]
      by_cases hc : fname ∈ dataKeys
      · rw [if_pos (by simpa using hc)]
        exact ih hnodup.2 hann attrs hattrs
      · rw [if_neg (by simpa using hc)]
        cases defaultValueFor defs fname ftype2 with
        | none => exact ih hnodup.2 hann attrs hattrs
        | some v =>
          exact ih hnodup.2 hann _
            ((alookup_setAttr_ne _ _ _ _ hf).trans hattrs)

theorem alookup_processEntries_nokey (anns : List (String × PyType))
    (defs : List (String × Value)) (k : String) :
    ∀ (entries : List (String × Value)), (∀ p ∈ entries, p.1 ≠ k) →
      ∀ attrs, alookup (processEntries anns defs attrs entries) k
        = alookup attrs k := by
  intro entries
  induction entries with
  | nil => intro _ attrs; rw [processEntries]
  | cons p rest ih =>
    intro hk attrs
    obtain ⟨k2, v2⟩ := p
    have hne : k2 ≠ k := hk (k2, v2) (by simp)
    have hrest : ∀ p ∈ rest, p.1 ≠ k := fun q hq => hk q (by simp [hq])
    rw [processEntries, ih hrest, alookup_processOne_ne _ _ _ _ _ _ hne]

/-- Sticky invariant along the whole second loop: a key whose class-level
default is a non-sentinel is never written to the instance `__dict__`. -/
theorem alookup_processEntries_sticky (anns : List (String × PyType))
    (defs : List (String × Value)) (k : String) (d : Value)
    (hd : alookup defs k = some d) (hs : isSentinel d = false) :
    ∀ (entries : List (String × Value)) (attrs : List (String × Value)),
      alookup attrs k = Option.none →
      alookup (processEntries anns defs attrs entries) k = Option.none := by
  intro entries
  induction entries with
  | nil => intro attrs h; rw [processEntries]; exact h
  | cons p rest ih =>
    intro attrs hattrs
    obtain ⟨k2, v2⟩ := p
    rw [processEntries]
    by_cases he : k2 = k
    · subst he
      have hcur : getAttrOr defs attrs k2 = d := by
        rw [getAttrOr, hattrs, hd]
      rw [processOne_nonsentinel _ _ _ _ _ (by rw [hcur]; exact hs)]
      exact ih attrs hattrs
    · exact ih _ ((alookup_processOne_ne _ _ _ _ _ _ he).trans hattrs)

theorem mem_of_alookup_some {α : Type} (l : List (String × α)) (k : String)
    (v : α) (h : alookup l k = some v) : k ∈ l.map Prod.fst := by
  induction l with
  | nil => simp [alookup] at h
  | cons p rest ih =>
    obtain ⟨k2, v2⟩ := p
    rw [alookup] at h
    by_cases he : k2 = k
    · simp [he]
    · rw [if_neg he] at h
      simp [ih h]

theorem convertItems_eq_map (en : String) (ea : List (String × PyType))
    (ed : List (String × Value)) (items : List Value) :
    convertItems en ea ed items = items.map (fun item =>
      if isInstanceOf en item then item
      else
        match item with
        | .dict kvs => gaspFromPartial en ea ed kvs
        | _ => item) := by
  induction items with
  | nil => rw [convertItems]; rfl
  | cons item rest ih =>
    rw [convertItems.eq_def]
    simp only [List.map_cons]
    rw [ih]

theorem convertVals_eq_map (vn : String) (va : List (String × PyType))
    (vd : List (String × Value)) (kvs : List (String × Value)) :
    convertVals vn va vd kvs = kvs.map (fun kv =>
      (kv.1,
        if isInstanceOf vn kv.2 then kv.2
        else
          match kv.2 with
          | .dict kvs2 => gaspFromPartial vn va vd kvs2
          | _ => kv.2)) := by
  induction kvs with
  | nil => rw [convertVals]; rfl
  | cons kv rest ih =>
    obtain ⟨k, v⟩ := kv
    rw [convertVals.eq_def]
    simp only [List.map_cons]
    rw [ih]

/-- On a sentinel current value, a `list[E]`-annotated field with a list
value is assigned the element-converted list
(`deserializable.py:56-67`). -/
theorem processOne_plist_conv (anns : List (String × PyType))
    (defs attrs : List (String × Value)) (key : String) (en : String)
    (ea : List (String × PyType)) (ed : List (String × Value))
    (items : List Value)
    (hcur : isSentinel (getAttrOr defs attrs key) = true)
    (hann : alookup anns key = some (.plist (.pclass en ea ed true))) :
    processOne anns defs attrs key (.list items)
      = setAttr attrs key (.list (convertItems en ea ed items)) := by
  rw [processOne, if_neg (by simp [hcur]), hann]

/-- On a sentinel current value, a `dict[K, V]`-annotated field with
`Deserializable` value class and a dict value is assigned the
value-converted dict (`deserializable.py:70-81`). -/
theorem processOne_pdict_conv (anns : List (String × PyType))
    (defs attrs : List (String × Value)) (key : String) (kt : PyType)
    (vn : String) (va : List (String × PyType)) (vd : List (String × Value))
    (kvs : List (String × Value))
    (hcur : isSentinel (getAttrOr defs attrs key) = true)
    (hann : alookup anns key = some (.pdict kt (.pclass vn va vd true))) :
    processOne anns defs attrs key (.dict kvs)
      = setAttr attrs key (.dict (convertVals vn va vd kvs)) := by
  rw [processOne, if_neg (by simp [hcur]), hann]

/-- On a sentinel current value, a field annotated with a `Deserializable`
class and given a dict value is assigned the recursively converted
instance (`deserializable.py:84-89`). -/
theorem processOne_pclass_conv (anns : List (String × PyType))
    (defs attrs : List (String × Value)) (key : String) (cn : String)
    (ca : List (String × PyType)) (cd : List (String × Value))
    (kvs : List (String × Value))
    (hcur : isSentinel (getAttrOr defs attrs key) = true)
    (hann : alookup anns key = some (.pclass cn ca cd true)) :
    processOne anns defs attrs key (.dict kvs)
      = setAttr attrs key (gaspFromPartial cn ca cd kvs) := by
  rw [processOne, if_neg (by simp [hcur]), hann]

/-- Processing a data list with unique keys writes, at the unique entry for
`key`, whatever value the loop body assigns from a sentinel pre-state. -/
theorem alookup_processEntries_found (anns : List (String × PyType))
    (defs : List (String × Value)) (key : String) (value w : Value) :
    ∀ (entries : List (String × Value)), (entries.map Prod.fst).Nodup →
      alookup entries key = some value →
      alookup defs key = Option.none →
      (∀ a2 : List (String × Value),
        isSentinel (getAttrOr defs a2 key) = true →
        processOne anns defs a2 key value = setAttr a2 key w) →
      ∀ attrs, alookup attrs key = Option.none →
        alookup (processEntries anns defs attrs entries) key = some w := by
  intro entries
  induction entries with
  | nil => intro _ h; simp [alookup] at h
  | cons p rest ih =>
    intro hnd hentry hdef hw attrs hattrs
    obtain ⟨k2, v2⟩ := p
    simp only [List.map_cons, List.nodup_cons] at hnd
    by_cases he : k2 = key
    · subst he
      rw [alookup, if_pos rfl] at hentry
      injection hentry with hv
      subst hv
      rw [processEntries]
      have hcur : isSentinel (getAttrOr defs attrs k2) = true := by
        rw [getAttrOr, hattrs, hdef]
        rfl
      rw [hw attrs hcur]
      have hrest : ∀ p ∈ rest, p.1 ≠ k2 := by
        intro q hq heq
        exact hnd.1 (heq ▸ List.mem_map_of_mem Prod.fst hq)
      rw [alookup_processEntries_nokey anns defs k2 rest hrest _,
        alookup_setAttr_self]
    · rw [processEntries]
      rw [alookup, if_neg he] at hentry
      exact ih hnd.2 hentry hdef hw _
        ((alookup_processOne_ne _ _ _ _ _ _ he).trans hattrs)

/-- C1: Sticky-field rule — in `Deserializable.__gasp_from_partial__`, a
field whose current value on the fresh instance (here: a non-sentinel
class-level default, the only source of a pre-existing value) is not one
of the sentinels `None, [], {}, (), set()` is never overwritten by the
value supplied for that key in `partial_data`; reading the attribute
afterwards still yields the existing non-sentinel value. -/
theorem gaspFromPartial_sticky (name : String) (anns : List (String × PyType))
    (defs data : List (String × Value)) (k : String) (d : Value)
    (hmem : k ∈ data.map Prod.fst)
    (hd : alookup defs k = some d)
    (hs : isSentinel d = false) :
    gaspGetAttr defs (gaspFromPartial name anns defs data) k = d := by
  have hinit : alookup (initDefaults defs (data.map Prod.fst) anns [])
      k = Option.none := by
    rw [alookup_initDefaults_mem defs _ k hmem anns []]
    rfl
  have hfinal :=
    alookup_processEntries_sticky anns defs k d hd hs data _ hinit
  rw [gaspFromPartial]
  simp only [gaspGetAttr]
  rw [getAttrOr, hfinal, hd]

theorem gaspFromPartial_sticky_witness :
    gaspGetAttr [("name", Value.str "TechCorp")]
      (gaspFromPartial "Company" [("name", PyType.pstr)]
        [("name", Value.str "TechCorp")] [("name", Value.str "Engineering")])
      "name" = Value.str "TechCorp" :=
  gaspFromPartial_sticky "Company" [("name", PyType.pstr)]
    [("name", Value.str "TechCorp")] [("name", Value.str "Engineering")]
    "name" (Value.str "TechCorp") (by simp) (by simp [alookup])
    (by simp [isSentinel])

/-- C2 (amended): a field absent from `partial_data` is initialized to the
class-level default when one exists, and otherwise to `[]`/`{}`/`set()`/
`()` for parameterized list/dict/set/tuple annotations, to `None` for a
`typing.Union` containing `NoneType`, to nothing at all for a
`typing.Union` without `NoneType`, and to `None` — not `""`, `0` or
`False` — for every other annotation, including `str`, `int` and
`bool`. -/
theorem gaspFromPartial_default_init (name : String)
    (anns : List (String × PyType)) (defs data : List (String × Value))
    (k : String) (ftype : PyType)
    (hnodup : (anns.map Prod.fst).Nodup)
    (hmem : k ∉ data.map Prod.fst)
    (hann : alookup anns k = some ftype) :
    alookup (objAttrs (gaspFromPartial name anns defs data)) k =
      (match alookup defs k with
       | some d => some d
       | Option.none =>
         match ftype with
         | .plist _ => some (Value.list [])
         | .pdict _ _ => some (Value.dict [])
         | .pset _ => some (Value.set [])
         | .ptuple _ => some (Value.tuple [])
         | .punion args =>
           if containsNoneType args then some Value.none else Option.none
         | _ => some Value.none) := by
  have hinit := alookup_initDefaults_absent defs (data.map Prod.fst) k ftype
    hmem anns hnodup hann [] rfl
  have hpres : ∀ p ∈ data, p.1 ≠ k := by
    intro q hq he
    exact hmem (he ▸ List.mem_map_of_mem Prod.fst hq)
  rw [gaspFromPartial]
  simp only [objAttrs]
  rw [alookup_processEntries_nokey anns defs k data hpres _, hinit]
  delta defaultValueFor
  cases alookup defs k with
  | some d => rfl
  | none => cases ftype <;> rfl

theorem gaspFromPartial_default_init_witness :
    alookup (objAttrs (gaspFromPartial "C"
        [("tags", PyType.plist PyType.pstr)] [] [])) "tags"
      = some (Value.list []) := by
  have h := gaspFromPartial_default_init "C"
    [("tags", PyType.plist PyType.pstr)] [] [] "tags"
    (PyType.plist PyType.pstr) (by simp) (by simp) (by simp [alookup])
  simpa [alookup] using h

/-- C2 counterexample: a `str`-annotated field with no class default and
absent from `partial_data` is initialized to `None`, not to `""` as the
claim states. -/
theorem gaspFromPartial_default_str_counterexample :
    alookup (objAttrs (gaspFromPartial "C" [("name", PyType.pstr)] [] []))
        "name" = some Value.none
      ∧ some Value.none ≠ some (Value.str "") := by
  constructor
  · have h := gaspFromPartial_default_init "C" [("name", PyType.pstr)] [] []
      "name" PyType.pstr (by simp) (by simp) (by simp [alookup])
    simpa [alookup] using h
  · simp

/-- C6: a field annotated with a union containing `NoneType` (e.g.
`Optional[list[Project]]`), with no class-level default and absent from
`partial_data`, is set to `None` — not to an empty list or any other
container. -/
theorem gaspFromPartial_optional_none (name : String)
    (anns : List (String × PyType)) (defs data : List (String × Value))
    (k : String) (args : List PyType)
    (hnodup : (anns.map Prod.fst).Nodup)
    (hmem : k ∉ data.map Prod.fst)
    (hann : alookup anns k = some (.punion args))
    (hargs : containsNoneType args = true)
    (hdef : alookup defs k = Option.none) :
    alookup (objAttrs (gaspFromPartial name anns defs data)) k
      = some Value.none := by
  have hinit := alookup_initDefaults_absent defs (data.map Prod.fst) k
    (.punion args) hmem anns hnodup hann [] rfl
  have hpres : ∀ p ∈ data, p.1 ≠ k := by
    intro q hq he
    exact hmem (he ▸ List.mem_map_of_mem Prod.fst hq)
  rw [gaspFromPartial]
  simp only [objAttrs]
  rw [alookup_processEntries_nokey anns defs k data hpres _, hinit,
    defaultValueFor, hdef]
  simp [hargs]

theorem gaspFromPartial_optional_none_witness :
    alookup (objAttrs (gaspFromPartial "Person"
        [("projects",
          PyType.punion [PyType.plist (PyType.pclass "Project" [] [] true),
            PyType.pnone])] [] [])) "projects" = some Value.none :=
  gaspFromPartial_optional_none "Person"
    [("projects",
      PyType.punion [PyType.plist (PyType.pclass "Project" [] [] true),
        PyType.pnone])] [] [] "projects"
    [PyType.plist (PyType.pclass "Project" [] [] true), PyType.pnone]
    (by simp) (by simp) (by simp [alookup]) (by simp [containsNoneType]) rfl

/-- C5: reference assignment of already-built records — for a `list[E]`
field receiving a list, each element that is already an instance of `E`
is placed into the resulting list unchanged (the same object), each dict
element is converted via `E.__gasp_from_partial__`, and other elements
pass through; analogously for `dict[K, V]` fields with `Deserializable`
value class, and for a field annotated with a `Deserializable` class
receiving a dict. -/
theorem gaspFromPartial_ref_assign (name : String)
    (anns : List (String × PyType)) (defs data : List (String × Value))
    (key : String)
    (hnd : (data.map Prod.fst).Nodup)
    (hdef : alookup defs key = Option.none) :
    (∀ (en : String) (ea : List (String × PyType))
        (ed : List (String × Value)) (items : List Value),
        alookup anns key = some (.plist (.pclass en ea ed true)) →
        alookup data key = some (.list items) →
        alookup (objAttrs (gaspFromPartial name anns defs data)) key =
          some (Value.list (items.map (fun item =>
            if isInstanceOf en item then item
            else
              match item with
              | .dict kvs => gaspFromPartial en ea ed kvs
              | _ => item))))
    ∧ (∀ (kt : PyType) (vn : String) (va : List (String × PyType))
        (vd : List (String × Value)) (kvs : List (String × Value)),
        alookup anns key = some (.pdict kt (.pclass vn va vd true)) →
        alookup data key = some (.dict kvs) →
        alookup (objAttrs (gaspFromPartial name anns defs data)) key =
          some (Value.dict (kvs.map (fun kv =>
            (kv.1,
              if isInstanceOf vn kv.2 then kv.2
              else
                match kv.2 with
                | .dict kvs2 => gaspFromPartial vn va vd kvs2
                | _ => kv.2)))))
    ∧ (∀ (cn : String) (ca : List (String × PyType))
        (cd : List (String × Value)) (kvs : List (String × Value)),
        alookup anns key = some (.pclass cn ca cd true) →
        alookup data key = some (.dict kvs) →
        alookup (objAttrs (gaspFromPartial name anns defs data)) key =
          some (gaspFromPartial cn ca cd kvs)) := by
  have hinitOf : ∀ v : Value, alookup data key = some v →
      alookup (initDefaults defs (data.map Prod.fst) anns []) key
        = Option.none := by
    intro v hv
    rw [alookup_initDefaults_mem defs _ key
      (mem_of_alookup_some data key v hv) anns []]
    rfl
  refine ⟨?_, ?_, ?_⟩
  · intro en ea ed items hann hdata
    have h := alookup_processEntries_found anns defs key (.list items)
      (.list (convertItems en ea ed items)) data hnd hdata hdef
      (fun a2 hcur => processOne_plist_conv anns defs a2 key en ea ed items
        hcur hann) _ (hinitOf _ hdata)
    rw [gaspFromPartial]
    simp only [objAttrs]
    rw [h, convertItems_eq_map]
  · intro kt vn va vd kvs hann hdata
    have h := alookup_processEntries_found anns defs key (.dict kvs)
      (.dict (convertVals vn va vd kvs)) data hnd hdata hdef
      (fun a2 hcur => processOne_pdict_conv anns defs a2 key kt vn va vd kvs
        hcur hann) _ (hinitOf _ hdata)
    rw [gaspFromPartial]
    simp only [objAttrs]
    rw [h, convertVals_eq_map]
  · intro cn ca cd kvs hann hdata
    have h := alookup_processEntries_found anns defs key (.dict kvs)
      (gaspFromPartial cn ca cd kvs) data hnd hdata hdef
      (fun a2 hcur => processOne_pclass_conv anns defs a2 key cn ca cd kvs
        hcur hann) _ (hinitOf _ hdata)
    rw [gaspFromPartial]
    simp only [objAttrs]
    rw [h]

theorem gaspFromPartial_ref_assign_witness :
    alookup (objAttrs (gaspFromPartial "W"
        [("xs", PyType.plist (PyType.pclass "E" [("a", PyType.pint)] [] true))]
        []
        [("xs", Value.list [Value.obj "E" [("a", Value.int 1)],
            Value.dict [("a", Value.int 2)], Value.int 5])]))
      "xs" = some (Value.list [Value.obj "E" [("a", Value.int 1)],
        Value.obj "E" [("a", Value.int 2)], Value.int 5]) := by
  have h := (gaspFromPartial_ref_assign "W"
      [("xs", PyType.plist (PyType.pclass "E" [("a", PyType.pint)] [] true))]
      []
      [("xs", Value.list [Value.obj "E" [("a", Value.int 1)],
          Value.dict [("a", Value.int 2)], Value.int 5])]
      "xs" (by simp) (by simp [alookup])).1 "E" [("a", PyType.pint)] []
      [Value.obj "E" [("a", Value.int 1)], Value.dict [("a", Value.int 2)],
        Value.int 5]
      (by simp [alookup]) (by simp [alookup])
  rw [h]
  simp [isInstanceOf, gaspFromPartial, processEntries, processOne,
    initDefaults, defaultValueFor, alookup, setAttr, getAttrOr, isSentinel]

theorem alookup_gaspUpdate_nokey (k : String) :
    ∀ (newData : List (String × Value)) (attrs : List (String × Value)),
      alookup newData k = Option.none →
      alookup (gaspUpdate attrs newData) k = alookup attrs k := by
  intro newData
  induction newData with
  | nil => intro attrs _; rfl
  | cons p rest ih =>
    intro attrs h
    obtain ⟨k2, v2⟩ := p
    rw [alookup] at h
    by_cases he : k2 = k
    · simp [he] at h
    · rw [if_neg he] at h
      show alookup (gaspUpdate (setAttr attrs k2 v2) rest) k = _
      rw [ih _ h, alookup_setAttr_ne _ _ _ _ he]

theorem alookup_gaspUpdate_found (k : String) (v : Value) :
    ∀ (newData : List (String × Value)) (attrs : List (String × Value)),
      (newData.map Prod.fst).Nodup →
      alookup newData k = some v →
      alookup (gaspUpdate attrs newData) k = some v := by
  intro newData
  induction newData with
  | nil => intro attrs _ h; simp [alookup] at h
  | cons p rest ih =>
    intro attrs hnd h
    obtain ⟨k2, v2⟩ := p
    simp only [List.map_cons, List.nodup_cons] at hnd
    rw [alookup] at h
    by_cases he : k2 = k
    · subst he
      rw [if_pos rfl] at h
      injection h with h
      subst h
      have hrest : alookup rest k2 = Option.none :=
        alookup_eq_none_of_not_mem rest k2 hnd.1
      show alookup (gaspUpdate (setAttr attrs k2 v2) rest) k2 = _
      rw [alookup_gaspUpdate_nokey k2 rest _ hrest, alookup_setAttr_self]
    · rw [if_neg he] at h
      show alookup (gaspUpdate (setAttr attrs k2 v2) rest) k = _
      exact ih _ hnd.2 h

/-- C8: `__gasp_update__` is an unconditional overwrite — after the update,
every key of `new_data` holds exactly the supplied value (no sticky
rule), and every attribute whose name is not a key of `new_data` is
unchanged. -/
theorem gaspUpdate_overwrite (attrs newData : List (String × Value))
    (hnd : (newData.map Prod.fst).Nodup) :
    (∀ k v, alookup newData k = some v →
        alookup (gaspUpdate attrs newData) k = some v)
    ∧ (∀ k, alookup newData k = Option.none →
        alookup (gaspUpdate attrs newData) k = alookup attrs k) :=
  ⟨fun k v h => alookup_gaspUpdate_found k v newData attrs hnd h,
   fun k h => alookup_gaspUpdate_nokey k newData attrs h⟩

theorem gaspUpdate_overwrite_witness :
    alookup (gaspUpdate [("a", Value.int 1), ("b", Value.str "keep")]
        [("a", Value.int 2)]) "a" = some (Value.int 2)
      ∧ alookup (gaspUpdate [("a", Value.int 1), ("b", Value.str "keep")]
          [("a", Value.int 2)]) "b"
        = alookup [("a", Value.int 1), ("b", Value.str "keep")] "b" :=
  ⟨(gaspUpdate_overwrite [("a", Value.int 1), ("b", Value.str "keep")]
      [("a", Value.int 2)] (by simp)).1 "a" (Value.int 2) (by simp [alookup]),
   (gaspUpdate_overwrite [("a", Value.int 1), ("b", Value.str "keep")]
      [("a", Value.int 2)] (by simp)).2 "b" (by simp [alookup])⟩

theorem getTypeNames_eq_map (args : List PyType) :
    getTypeNames args = args.map getTypeName := by
  induction args with
  | nil => rfl
  | cons t rest ih => rw [getTypeNames, ih]; rfl

theorem getTypeNamesSkipNone_eq_filter (args : List PyType) :
    getTypeNamesSkipNone args
      = (args.filter (fun t => !isNoneT t)).map getTypeName := by
  induction args with
  | nil => rfl
  | cons t rest ih => cases t <;> simp [getTypeNamesSkipNone, isNoneT, ih]

/-- C7 counterexample: for the Python 3.10 union form `int | None`
(`types.UnionType`) — a two-member union containing the none-type —
`_get_type_name` returns `"int"`, because the `UnionType` branch at
`template_helpers.py:551-554` runs before the `Optional` special case and
joins the member names excluding `NoneType`; the claim requires
`"Optional[int]"`. -/
theorem getTypeName_unionNew_counterexample :
    getTypeName (PyType.punionNew [PyType.pint, PyType.pnone]) = "int"
      ∧ "int" ≠ "Optional[int]" :=
  ⟨rfl, by decide⟩

/-- C7 (amended): `_get_type_name` produces `"list[T]"`, `"dict[K, V]"`,
`"set[T]"`, `"tuple[T, ...]"` for variadic tuples, `"tuple[T1, ..., Tn]"`
for other non-empty tuples, `"Optional[T]"` for a two-member
`typing.Union` containing the none-type, the member names joined by
`" | "` excluding the none-type for all other `typing.Union`s AND for
every `X | Y`-form union (`types.UnionType`) — even a two-member one
containing the none-type —, `"str"`/`"int"`/`"float"`/`"bool"` for the
primitives, `"None"` for the none-type, and the class `__name__`
otherwise. -/
theorem getTypeName_spec :
    (∀ t, getTypeName (.plist t) = "list[" ++ getTypeName t ++ "]")
    ∧ (∀ k v, getTypeName (.pdict k v)
        = "dict[" ++ getTypeName k ++ ", " ++ getTypeName v ++ "]")
    ∧ (∀ t, getTypeName (.pset t) = "set[" ++ getTypeName t ++ "]")
    ∧ (∀ t, getTypeName (.ptuple [t, .pellipsis])
        = "tuple[" ++ getTypeName t ++ ", ...]")
    ∧ (∀ args : List PyType, args ≠ [] →
        (∀ t, args ≠ [t, PyType.pellipsis]) →
        getTypeName (.ptuple args)
          = "tuple[" ++ ", ".intercalate (args.map getTypeName) ++ "]")
    ∧ (∀ t, getTypeName (.punion [t, .pnone])
        = "Optional[" ++ getTypeName t ++ "]")
    ∧ (∀ t, getTypeName (.punion [.pnone, t])
        = "Optional[" ++ getTypeName t ++ "]")
    ∧ (∀ args : List PyType,
        ¬(args.length = 2 ∧ containsNoneType args = true) →
        getTypeName (.punion args)
          = " | ".intercalate
              ((args.filter (fun t => !isNoneT t)).map getTypeName))
    ∧ (∀ args : List PyType,
        getTypeName (.punionNew args)
          = " | ".intercalate
              ((args.filter (fun t => !isNoneT t)).map getTypeName))
    ∧ getTypeName .pstr = "str" ∧ getTypeName .pint = "int"
    ∧ getTypeName .pfloat = "float" ∧ getTypeName .pbool = "bool"
    ∧ getTypeName .pnone = "None"
    ∧ (∀ n anns defs deser, getTypeName (.pclass n anns defs deser) = n) := by
  refine ⟨?_, ?_, ?_, ?_, ?_, ?_, ?_, ?_, ?_, rfl, rfl, rfl, rfl, rfl, ?_⟩
  · intro t; rw [getTypeName]
  · intro k v; rw [getTypeName]
  · intro t; rw [getTypeName]
  · intro t; rw [getTypeName]
  · intro args h1 h2
    match args with
    | [] => exact absurd rfl h1
    | [a] => rw [getTypeName, getTypeNames_eq_map] <;> simp
    | [a, b] =>
      cases b
      case pellipsis => exact absurd rfl (h2 a)
      all_goals (rw [getTypeName, getTypeNames_eq_map] <;> simp)
    | a :: b :: c :: rest => rw [getTypeName, getTypeNames_eq_map] <;> simp
  · intro t; cases t <;> rfl
  · intro t; cases t <;> rfl
  · intro args h
    match args with
    | [] => rw [getTypeName, getTypeNamesSkipNone_eq_filter] <;> simp
    | [a] => rw [getTypeName, getTypeNamesSkipNone_eq_filter] <;> simp
    | [a, b] =>
      cases a <;> cases b <;>
        first
          | (rw [getTypeName, getTypeNamesSkipNone_eq_filter] <;> simp)
          | exact absurd ⟨rfl, by simp [containsNoneType]⟩ h
    | a :: b :: c :: rest =>
      rw [getTypeName, getTypeNamesSkipNone_eq_filter] <;> simp
  · intro args; rw [getTypeName, getTypeNamesSkipNone_eq_filter]
  · intro n anns defs deser; rw [getTypeName]

theorem getTypeName_spec_witness :
    getTypeName (.ptuple [PyType.pint, PyType.pstr, PyType.pbool])
        = "tuple[int, str, bool]"
      ∧ getTypeName (.punion [PyType.pint, PyType.pstr, PyType.pnone])
        = "int | str" := by
  constructor
  · have h := getTypeName_spec.2.2.2.2.1
      [PyType.pint, PyType.pstr, PyType.pbool] (by simp) (by simp)
    simpa using h
  · have h := getTypeName_spec.2.2.2.2.2.2.2.1
      [PyType.pint, PyType.pstr, PyType.pnone] (by simp [containsNoneType])
    simpa [isNoneT] using h

theorem feed_append (st : ScannerState) (a b : List Char) :
    feed st (a ++ b) = feed (feed st a) b :=
  List.foldl_append scanChar st a b

theorem feedAll_eq_feed_join (chunks : List (List Char)) :
    ∀ st, feedAll st chunks = feed st chunks.flatten := by
  induction chunks with
  | nil => intro st; rfl
  | cons a rest ih =>
    intro st
    show feedAll (feed st a) rest = feed st (a ++ rest.flatten)
    rw [feed_append, ih]

/-- C3: chunk-independence — for every input and every way of splitting it
into an ordered sequence of non-empty chunks, feeding the chunks in order
produces the same final parsed value as feeding the whole input at once;
in particular one character at a time equals one shot.  (The engine
processes characters strictly in arrival order with no lookahead across
chunks, so the scanner state after a chunk sequence depends only on the
concatenation.) -/
theorem feed_chunk_independence (ty : PyType) (tags : List String)
    (chunks : List (List Char)) (S : List Char)
    (hne : ∀ c ∈ chunks, c ≠ ([] : List Char))
    (hjoin : chunks.flatten = S) :
    finalValue ty (feedAll (initScanner tags) chunks)
      = finalValue ty (feed (initScanner tags) S) := by
  subst hjoin
  rw [feedAll_eq_feed_join]

theorem feed_chunk_independence_witness :
    (∀ c ∈ [['<', 'a', '>'], ['h'], ['i'], ['<', '/', 'a', '>']],
      c ≠ ([] : List Char))
    ∧ finalValue .pstr
        (feedAll (initScanner ["think"])
          [['<', 'a', '>'], ['h'], ['i'], ['<', '/', 'a', '>']])
      = finalValue .pstr
          (feed (initScanner ["think"])
            ['<', 'a', '>', 'h', 'i', '<', '/', 'a', '>']) :=
  ⟨by decide,
   feed_chunk_independence .pstr ["think"]
     [['<', 'a', '>'], ['h'], ['i'], ['<', '/', 'a', '>']]
     ['<', 'a', '>', 'h', 'i', '<', '/', 'a', '>'] (by decide) rfl⟩

theorem intercalate_cons_of_ne_nil {α : Type} (sep x : List α)
    (rest : List (List α)) (h : rest ≠ []) :
    List.intercalate sep (x :: rest)
      = x ++ sep ++ List.intercalate sep rest := by
  cases rest with
  | nil => exact absurd rfl h
  | cons y rest2 => simp [List.intercalate, List.intersperse]

/-- Python `str.replace` semantics: the input splits into occurrence-free
parts joined by the pattern, and the output is the same parts joined by
the replacement. -/
theorem replaceAll_decomp (p r : List Char) (hp : p ≠ []) :
    ∀ s : List Char, ∃ parts : List (List Char),
      parts ≠ [] ∧ (∀ part ∈ parts, isSubstring p part = false)
      ∧ s = List.intercalate p parts
      ∧ replaceAll p r s = List.intercalate r parts := by
  intro s
  induction s using replaceAll.induct p r with
  | case1 =>
    exact ⟨[[]], by simp, by simp [isSubstring, hp], by simp [List.intercalate],
      by rw [replaceAll]; simp [List.intercalate]⟩
  | case2 c rest h ih =>
    obtain ⟨parts0, hne0, hsub0, hs0, hr0⟩ := ih
    obtain ⟨t, ht⟩ := List.isPrefixOf_iff_prefix.mp h.1
    have hdrop : List.drop p.length (c :: rest) = t := by
      rw [← ht, List.drop_left]
    rw [hdrop] at hs0 hr0
    refine ⟨[] :: parts0, by simp, ?_, ?_, ?_⟩
    · intro part hpart
      rcases List.mem_cons.mp hpart with h1 | h1
      · subst h1; simp [isSubstring, hp]
      · exact hsub0 part h1
    · rw [intercalate_cons_of_ne_nil p [] parts0 hne0]
      simp [← hs0, ← ht]
    · rw [replaceAll.eq_def]
      simp only [dif_pos h]
      rw [hdrop, hr0, intercalate_cons_of_ne_nil r [] parts0 hne0]
      simp
  | case3 c rest h3 ih =>
    have hnpre : ¬ p.isPrefixOf (c :: rest) = true := fun hx => h3 ⟨hx, hp⟩
    obtain ⟨parts0, hne0, hsub0, hs0, hr0⟩ := ih
    cases parts0 with
    | nil => exact absurd rfl hne0
    | cons pt rest0 =>
      have hpre_false : p.isPrefixOf (c :: pt) = false := by
        rw [Bool.eq_false_iff]
        intro hx
        apply hnpre
        have h1 : p <+: (c :: pt) := List.isPrefixOf_iff_prefix.mp hx
        cases rest0 with
        | nil =>
          have he : rest = pt := by simpa [List.intercalate] using hs0
          exact List.isPrefixOf_iff_prefix.mpr (by rw [he]; exact h1)
        | cons q qs =>
          rw [intercalate_cons_of_ne_nil p pt (q :: qs) (by simp)] at hs0
          refine List.isPrefixOf_iff_prefix.mpr (h1.trans ?_)
          rw [hs0]
          exact ⟨p ++ List.intercalate p (q :: qs), by simp⟩
      refine ⟨(c :: pt) :: rest0, by simp, ?_, ?_, ?_⟩
      · intro part hpart
        rcases List.mem_cons.mp hpart with h1 | h1
        · subst h1
          rw [isSubstring, hpre_false, hsub0 pt (by simp)]
          rfl
        · exact hsub0 part (by simp [h1])
      · cases rest0 with
        | nil =>
          have he : rest = pt := by simpa [List.intercalate] using hs0
          simp [List.intercalate, he]
        | cons q qs =>
          rw [intercalate_cons_of_ne_nil p pt (q :: qs) (by simp)] at hs0
          rw [intercalate_cons_of_ne_nil p (c :: pt) (q :: qs) (by simp)]
          simp [hs0]
      · rw [replaceAll.eq_def]
        simp only [dif_neg h3]
        rw [hr0]
        cases rest0 with
        | nil => simp [List.intercalate]
        | cons q qs =>
          rw [intercalate_cons_of_ne_nil r pt (q :: qs) (by simp),
            intercalate_cons_of_ne_nil r (c :: pt) (q :: qs) (by simp)]
          simp

/-- C10: `interpolate_prompt` returns the template unchanged when the
placeholder built from `format_tag` does not occur in it; otherwise it
returns the template with every occurrence of the placeholder replaced by
the instructions string and every other character unchanged (expressed by
the occurrence-free decomposition into parts joined by the placeholder
resp. by the instructions). -/
theorem interpolatePrompt_spec (template instructions formatTag : List Char) :
    (isSubstring (mkPlaceholder formatTag) template = false →
      interpolatePrompt template instructions formatTag = template)
    ∧ (isSubstring (mkPlaceholder formatTag) template = true →
      ∃ parts : List (List Char), parts ≠ []
        ∧ (∀ part ∈ parts,
            isSubstring (mkPlaceholder formatTag) part = false)
        ∧ template = List.intercalate (mkPlaceholder formatTag) parts
        ∧ interpolatePrompt template instructions formatTag
            = List.intercalate instructions parts) := by
  constructor
  · intro h
    rw [interpolatePrompt, if_neg (by simp [h])]
  · intro h
    obtain ⟨parts, h1, h2, h3, h4⟩ :=
      replaceAll_decomp (mkPlaceholder formatTag) instructions
        (by simp [mkPlaceholder]) template
    refine ⟨parts, h1, h2, h3, ?_⟩
    rw [interpolatePrompt, if_pos (by simp [h])]
    exact h4

theorem interpolatePrompt_spec_witness :
    isSubstring (mkPlaceholder ['x'])
        ['a', Char.ofNat 123, Char.ofNat 123, 'x', Char.ofNat 125,
          Char.ofNat 125, 'b'] = true
      ∧ ∃ parts : List (List Char), parts ≠ []
        ∧ (∀ part ∈ parts, isSubstring (mkPlaceholder ['x']) part = false)
        ∧ ['a', Char.ofNat 123, Char.ofNat 123, 'x', Char.ofNat 125,
            Char.ofNat 125, 'b'] = List.intercalate (mkPlaceholder ['x']) parts
        ∧ interpolatePrompt
            ['a', Char.ofNat 123, Char.ofNat 123, 'x', Char.ofNat 125,
              Char.ofNat 125, 'b'] ['I'] ['x']
            = List.intercalate ['I'] parts :=
  ⟨by decide,
   (interpolatePrompt_spec
      ['a', Char.ofNat 123, Char.ofNat 123, 'x', Char.ofNat 125,
        Char.ofNat 125, 'b'] ['I'] ['x']).2 (by decide)⟩

theorem dumpList_clean (xs : List Value) :
    ∀ x ∈ dumpList true xs, noObjNone x := by
  intro x hx
  match xs with
  | [] => rw [dumpList] at hx; cases hx
  | item :: rest =>
    rw [dumpList.eq_def] at hx
    cases item <;> simp [isNone] at hx
    all_goals first
      | exact dumpList_clean rest x hx
      | {rcases hx with h1 | h1
         · subst h1
           simp [noObjNone]
         · exact dumpList_clean rest x h1}
termination_by (sizeOf xs, 0)

theorem dumpDict_clean (kvs : List (String × Value)) :
    ∀ e ∈ dumpDict true kvs, noObjNone e.2 := by
  intro e he
  match kvs with
  | [] => rw [dumpDict] at he; cases he
  | (k, v) :: rest =>
    rw [dumpDict.eq_def] at he
    cases v <;> simp [isNone] at he
    all_goals first
      | exact dumpDict_clean rest e he
      | {rcases he with h1 | h1
         · subst h1
           simp [noObjNone]
         · exact dumpDict_clean rest e h1}
termination_by (sizeOf kvs, 0)

theorem dumpAttrs_clean (attrs : List (String × Value)) :
    ∀ kv ∈ dumpAttrs true attrs,
      ¬ pyStartsWithUnderscore kv.1 ∧ noObjNone kv.2
        ∧ (∀ xs, kv.2 = Value.list xs → ∀ x ∈ xs, noObjNone x)
        ∧ (∀ kvs, kv.2 = Value.dict kvs → ∀ e ∈ kvs, noObjNone e.2) := by
  intro kv hkv
  match attrs with
  | [] => rw [dumpAttrs] at hkv; cases hkv
  | (k, v) :: rest =>
    by_cases hu : pyStartsWithUnderscore k
    · rw [dumpAttrs.eq_def] at hkv
      simp only [hu, if_true] at hkv
      exact dumpAttrs_clean rest kv hkv
    · rw [dumpAttrs.eq_def] at hkv
      cases v <;> simp [isNone, hu] at hkv
      all_goals first
        | exact dumpAttrs_clean rest kv hkv
        | {rcases hkv with h1 | h1
           · subst h1
             refine ⟨hu, by simp [noObjNone], ?_, ?_⟩
             · intro xs hxs
               first
                 | {injection hxs with h2
                    subst h2
                    exact dumpList_clean _}
                 | injection hxs
             · intro kvs hkvs
               first
                 | {injection hkvs with h2
                    subst h2
                    first
                      | exact dumpDict_clean _
                      | exact fun e he => (dumpAttrs_clean _ e he).2.1}
                 | injection hkvs
           · exact dumpAttrs_clean rest kv h1}
termination_by sizeOf attrs

/-- C9 counterexample: the keys of a plain dict-valued attribute are not
filtered — `model_dump(exclude_none=True)` on an instance whose
`__dict__` is `{"d": {"_secret": 1}}` returns that same dict, which has a
key starting with an underscore at a nested level, so the returned dict
does not satisfy the claimed property at every nesting level. -/
theorem modelDump_deepClean_counterexample :
    modelDump true [("d", Value.dict [("_secret", Value.int 1)])]
        = Value.dict [("d", Value.dict [("_secret", Value.int 1)])]
      ∧ deepClean
          (modelDump true [("d", Value.dict [("_secret", Value.int 1)])])
        = false := by
  constructor
  · simp [modelDump, dumpAttrs, dumpDict, isNone, pyStartsWithUnderscore]
  · have h : modelDump true [("d", Value.dict [("_secret", Value.int 1)])]
        = Value.dict [("d", Value.dict [("_secret", Value.int 1)])] := by
      simp [modelDump, dumpAttrs, dumpDict, isNone, pyStartsWithUnderscore]
    rw [h]
    simp [deepClean, deepCleanEntries, isNone, pyStartsWithUnderscore]

/-- C9 (amended): `model_dump(exclude_none=True)` returns a dict whose
entries carry non-underscore attribute names and values that are neither
`None` nor un-dumped instances; list- and dict-valued attributes are
processed one level deep — their direct elements resp. values are neither
`None` nor un-dumped instances (instances there are recursively dumped,
`None`s dropped) — while the keys of plain dict values and the contents
of deeper plain nesting pass through unchanged. -/
theorem modelDump_filter (attrs : List (String × Value)) :
    ∃ out : List (String × Value),
      modelDump true attrs = Value.dict out
      ∧ (∀ kv ∈ out,
          ¬ pyStartsWithUnderscore kv.1 ∧ kv.2 ≠ Value.none
            ∧ ∀ m a, kv.2 ≠ Value.obj m a)
      ∧ (∀ kv ∈ out, ∀ xs, kv.2 = Value.list xs →
          ∀ x ∈ xs, x ≠ Value.none ∧ ∀ m a, x ≠ Value.obj m a)
      ∧ (∀ kv ∈ out, ∀ kvs, kv.2 = Value.dict kvs →
          ∀ e ∈ kvs, e.2 ≠ Value.none ∧ ∀ m a, e.2 ≠ Value.obj m a) := by
  refine ⟨dumpAttrs true attrs, rfl, ?_, ?_, ?_⟩
  · intro kv hkv
    obtain ⟨h1, h2, _, _⟩ := dumpAttrs_clean attrs kv hkv
    exact ⟨h1, h2.1, h2.2⟩
  · intro kv hkv xs hxs x hx
    obtain ⟨_, _, h3, _⟩ := dumpAttrs_clean attrs kv hkv
    exact ⟨(h3 xs hxs x hx).1, (h3 xs hxs x hx).2⟩
  · intro kv hkv kvs hkvs e he
    obtain ⟨_, _, _, h4⟩ := dumpAttrs_clean attrs kv hkv
    exact ⟨(h4 kvs hkvs e he).1, (h4 kvs hkvs e he).2⟩

theorem modelDump_filter_witness :
    modelDump true [("_h", Value.int 1), ("a", Value.none),
        ("c", Value.list [Value.none, Value.int 3,
          Value.obj "I" [("y", Value.int 2)]])]
      = Value.dict [("c", Value.list [Value.int 3,
          Value.dict [("y", Value.int 2)]])]
    ∧ ∀ x ∈ [Value.int 3, Value.dict [("y", Value.int 2)]],
        x ≠ Value.none ∧ ∀ m a, x ≠ Value.obj m a := by
  have heval : modelDump true [("_h", Value.int 1), ("a", Value.none),
      ("c", Value.list [Value.none, Value.int 3,
        Value.obj "I" [("y", Value.int 2)]])]
      = Value.dict [("c", Value.list [Value.int 3,
          Value.dict [("y", Value.int 2)]])] := by
    simp [modelDump, dumpAttrs, dumpList, isNone, pyStartsWithUnderscore]
  refine ⟨heval, ?_⟩
  obtain ⟨out, heq, hA, hB, hC⟩ := modelDump_filter
    [("_h", Value.int 1), ("a", Value.none),
      ("c", Value.list [Value.none, Value.int 3,
        Value.obj "I" [("y", Value.int 2)]])]
  have hout : out = [("c", Value.list [Value.int 3,
      Value.dict [("y", Value.int 2)]])] := by
    have h2 : Value.dict out = Value.dict [("c", Value.list [Value.int 3,
        Value.dict [("y", Value.int 2)]])] := by rw [← heq, heval]
    injection h2
  subst hout
  intro x hx
  exact hB ("c", Value.list [Value.int 3, Value.dict [("y", Value.int 2)]])
    (by simp) _ rfl x hx

/-- C4: the `gasp.Parser` factory called with `ignored_tags` omitted or
`None` constructs the native parser with exactly
`["think", "thinking", "system"]`; any explicitly supplied list —
including the empty list — is passed through unchanged, replacing the
default. -/
theorem Parser_ignored_tags (typeObj : Option PyType) :
    (Parser typeObj Option.none).ignoredTags = ["think", "thinking", "system"]
      ∧ ∀ tags : List String, (Parser typeObj (some tags)).ignoredTags = tags
      ∧ (Parser typeObj (some [])).ignoredTags = [] :=
  ⟨rfl, fun _ => ⟨rfl, rfl⟩⟩

end Gasp
